import Mathlib

/-!
Shallow embedding of the foam-drainage simulator in src/SyringeDrainage.py.

Numeric conventions: Python floats are modelled as real numbers; the Python
built-in round to a given number of decimal places is modelled by scaling to
an integer, so that two values round equal at dp decimal places exactly when
their scaled integer roundings coincide.  Fallible operations (out-of-bounds
indexing on the time grid) are modelled with Option, returning none where the
Python code raises.  Instance attributes of the classes (syringe diameter D,
initial column length L, foam half time FHT, accuracy digits, sampling
frequency) are passed as explicit parameters.
-/

namespace SyringeDrainage

/-- Syringe.getSyringeCrossArea: cross-section area of the syringe in mm2,
computed from the diameter D as pi times the squared radius. -/
noncomputable def getSyringeCrossArea (D : ℝ) : ℝ := Real.pi * (D / 2) ^ 2

/-- Foam.modelArea: cross-section area of the circular segment occupied by
the drained liquid, for central angle theta and syringe radius. -/
noncomputable def modelArea (theta radius : ℝ) : ℝ :=
  radius ^ 2 / 2 * (theta - Real.sin theta)

/-- Foam.calculateHeight: height of liquid in a horizontal syringe from the
syringe diameter and the central angle. -/
noncomputable def calculateHeight (syringeDiameter angle : ℝ) : ℝ :=
  syringeDiameter / 2 * (1 - Real.cos (angle / 2))

/-- np.linspace(a, b, n): n equally spaced samples from a to b inclusive.
For n = 1 numpy returns the single sample a; the division by zero in the
real model also yields a in that case. -/
noncomputable def linspace (a b : ℝ) (n : ℕ) : List ℝ :=
  (List.range n).map (fun (i : ℕ) => a + (b - a) * i / ((n - 1 : ℕ) : ℝ))

/-- Rounding a real to dp decimal places, represented by the scaled integer
round (x * 10 ^ dp).  Two reals round equal at dp decimal places exactly when
their scaled integer roundings coincide. -/
noncomputable def roundDP (dp : ℕ) (x : ℝ) : ℤ := round (x * 10 ^ dp)

/-- Time grid of Foam.setTimeParams and of the realignment step in
Foam.getLiquidHeight: np.linspace(0, T, int(T) * Tfrequency + 1). -/
noncomputable def setTimeGrid (T : ℝ) (Tfrequency : ℕ) : List ℝ :=
  linspace 0 T (⌊T⌋.toNat * Tfrequency + 1)

/-- Loop body of Foam.getLiquidVolume: n steps of the explicit Euler
depletion, carrying the remaining content C and the cumulative drained
volume V, emitting the cumulative volume after each update. -/
noncomputable def drainList (dt FHT : ℝ) : ℕ → ℝ → ℝ → List ℝ
  | 0, _, _ => []
  | n + 1, C, V =>
      (V + dt * C / (2 * FHT)) ::
        drainList dt FHT n (C - dt * C / (2 * FHT)) (V + dt * C / (2 * FHT))

/-- Foam.getLiquidVolume: drainage kinetics over the time grid tdata with
initial drainable content foamLiquidContent and half time FHT.  The Python
code reads tdata[1] - tdata[0] before the loop, so a grid with fewer than
two points raises; this is modelled by none. -/
noncomputable def getLiquidVolume (tdata : List ℝ) (foamLiquidContent FHT : ℝ) :
    Option (List ℝ) :=
  match tdata with
  | t0 :: t1 :: rest =>
      some (drainList (t1 - t0) FHT (rest.length + 2) foamLiquidContent 0)
  | _ => none

/-- Loop body of Foam.getLiquidLength: n steps adding the constant length
increment dl, emitting the running length after each update. -/
noncomputable def lengthList (dl : ℝ) : ℕ → ℝ → List ℝ
  | 0, _ => []
  | n + 1, L => (L + dl) :: lengthList dl n (L + dl)

/-- Foam.getLiquidLength: length of the liquid column over the time grid
tdata for flow rate Q, starting from the initial column length L0
(self.L = V * 1000 / crossArea in the source).  A grid with fewer than two
points raises on tdata[1]; this is modelled by none. -/
noncomputable def getLiquidLength (D : ℝ) (tdata : List ℝ) (Q L0 : ℝ) :
    Option (List ℝ) :=
  match tdata with
  | t0 :: t1 :: rest =>
      some (lengthList ((t1 - t0) * (-Q * 1000) / getSyringeCrossArea D)
        (rest.length + 2) L0)
  | _ => none

/-- Foam.getLiquidArea: target liquid cross-section areas, keeping only the
samples whose area lies strictly between 0 and the syringe cross-section
area, in the order of the condition in the source comprehension. -/
noncomputable def getLiquidArea (D L0 FHT : ℝ) (tdata : List ℝ)
    (Q foamLiquidContent : ℝ) : Option (List ℝ) :=
  match getLiquidVolume tdata foamLiquidContent FHT,
      getLiquidLength D tdata Q L0 with
  | some vols, some lens =>
      some (((vols.map (fun w => w * 1000)).zip lens).filterMap
        (fun p =>
          if p.1 / p.2 < getSyringeCrossArea D ∧ 0 < p.1 / p.2 then
            some (p.1 / p.2)
          else none))
  | _, _ => none

/-- Python list.index on the scaled integer area table: index of the first
occurrence of b in the list (length of the list when absent, which the
callers guard against by a membership test, as the source does). -/
def firstIdx : List ℤ → ℤ → ℕ
  | [], _ => 0
  | a :: rest, b => if a = b then 0 else firstIdx rest b + 1

/-- Inner for loop of Foam.getLiquidHeight over the target areas: for each
target area, test membership in the rounded simulated-area table; on the
first miss stop with failure, keeping the angles already recorded; otherwise
record the angle at the first matching table index.  Returns the success
flag together with the recorded angles. -/
noncomputable def collectThetas (thetaTab : List ℝ) (areaTab : List ℤ) :
    List ℤ → Bool × List ℝ
  | [] => (true, [])
  | a :: rest =>
      if a ∈ areaTab then
        ((collectThetas thetaTab areaTab rest).1,
          thetaTab.getD (firstIdx areaTab a) 0 ::
            (collectThetas thetaTab areaTab rest).2)
      else (false, [])

/-- Rounded model-area table of Foam.getLiquidHeight: the model areas of N
equally spaced angles over [0, 2 pi], each rounded to accDP decimal places
(scaled-integer representation). -/
noncomputable def simAreas (accDP : ℕ) (radius : ℝ) (N : ℕ) : List ℤ :=
  (linspace 0 (2 * Real.pi) N).map (fun theta => roundDP accDP (modelArea theta radius))

/-- One pass of the solver in Foam.getLiquidHeight at table resolution N:
build the angle samples and the rounded model-area table, then run the
matching loop over the rounded target areas. -/
noncomputable def passOnce (accDP : ℕ) (radius : ℝ) (areas : List ℤ) (N : ℕ) :
    Bool × List ℝ :=
  collectThetas (linspace 0 (2 * Real.pi) N) (simAreas accDP radius N) areas

/-- While loop of Foam.getLiquidHeight: run passes with the iteration count
starting at the given value; on success return the recorded angles, on
failure add 5000 and retry while the count stays below 500000, otherwise
return the partial angle list of the last pass.  The branch for an entry
count at or above 500000 is unreachable from the entry value 10000 used by
the source. -/
noncomputable def solveAngles (accDP : ℕ) (radius : ℝ) (areas : List ℤ)
    (iterations : ℕ) : List ℝ :=
  if iterations < 500000 then
    if (passOnce accDP radius areas iterations).1 then
      (passOnce accDP radius areas iterations).2
    else if _h2 : iterations + 5000 < 500000 then
      solveAngles accDP radius areas (iterations + 5000)
    else (passOnce accDP radius areas iterations).2
  else []
termination_by 500000 - iterations
decreasing_by omega

/-- Foam.getLiquidHeight: round the target areas, solve for the central
angles starting from 10000 iterations, convert angles to heights, clamp any
height above D / 2 to exactly D / 2, and realign against a regenerated time
grid truncated to the number of recovered heights.  Propagates the grid
failure of getLiquidArea as none. -/
noncomputable def getLiquidHeight (D L0 FHT : ℝ) (accDP Tfrequency : ℕ)
    (tdata : List ℝ) (Q T foamLiquidContent : ℝ) :
    Option (List ℝ × List ℝ) :=
  match getLiquidArea D L0 FHT tdata Q foamLiquidContent with
  | none => none
  | some rawAreas =>
      let thetas := solveAngles accDP (D / 2) (rawAreas.map (roundDP accDP)) 10000
      let liquidHeight := thetas.map (fun x => calculateHeight D x)
      let clamped := liquidHeight.map (fun x => if D / 2 < x then D / 2 else x)
      some (clamped, (setTimeGrid T Tfrequency).take clamped.length)

/-! Basic facts about the embedded list loops. -/

lemma linspace_length (a b : ℝ) (n : ℕ) : (linspace a b n).length = n := by
  rw [linspace, List.length_map, List.length_range]

lemma linspace_getD (a b : ℝ) {n i : ℕ} (h : i < n) :
    (linspace a b n).getD i 0 = a + (b - a) * i / ((n - 1 : ℕ) : ℝ) := by
  rw [List.getD_eq_getElem _ _ (by simpa [linspace_length] using h)]
  simp only [linspace, List.getElem_map, List.getElem_range]

lemma linspace_getD_mono (a b : ℝ) (hab : a ≤ b) {n i j : ℕ} (hij : i ≤ j)
    (hj : j < n) :
    (linspace a b n).getD i 0 ≤ (linspace a b n).getD j 0 := by
  rw [linspace_getD a b (lt_of_le_of_lt hij hj), linspace_getD a b hj]
  have hb : (0:ℝ) ≤ b - a := by linarith
  have hc : (0:ℝ) ≤ ((n - 1 : ℕ) : ℝ) := Nat.cast_nonneg _
  rcases eq_or_lt_of_le hc with hc0 | hcpos
  · rw [← hc0]
    simp
  · have hnum : (b - a) * i ≤ (b - a) * j := by
      apply mul_le_mul_of_nonneg_left _ hb
      exact_mod_cast hij
    have := (div_le_div_iff_of_pos_right hcpos).mpr hnum
    linarith

lemma drainList_length (dt FHT : ℝ) :
    ∀ (n : ℕ) (C V : ℝ), (drainList dt FHT n C V).length = n
  | 0, _, _ => rfl
  | n + 1, C, V => by
    simp [drainList, drainList_length dt FHT n]

lemma drainList_getD_zero (dt FHT : ℝ) {n : ℕ} (hn : 0 < n) (C V : ℝ) :
    (drainList dt FHT n C V).getD 0 0 = V + dt * C / (2 * FHT) := by
  cases n with
  | zero => omega
  | succ m => rfl

lemma drainList_getD_succ (dt FHT : ℝ) :
    ∀ (n k : ℕ), k + 1 < n → ∀ (C V : ℝ),
      (drainList dt FHT n C V).getD (k + 1) 0 =
        (drainList dt FHT n C V).getD k 0 +
          dt * ((C + V) - (drainList dt FHT n C V).getD k 0) / (2 * FHT) := by
  intro n
  induction n with
  | zero => omega
  | succ m ih =>
    intro k hk C V
    cases k with
    | zero =>
      have hm : 0 < m := by omega
      show (drainList dt FHT m (C - dt * C / (2 * FHT))
          (V + dt * C / (2 * FHT))).getD 0 0 = _
      rw [drainList_getD_zero dt FHT hm]
      show _ = (V + dt * C / (2 * FHT)) +
        dt * ((C + V) - (V + dt * C / (2 * FHT))) / (2 * FHT)
      ring
    | succ k =>
      have hk' : k + 1 < m := by omega
      show (drainList dt FHT m (C - dt * C / (2 * FHT))
          (V + dt * C / (2 * FHT))).getD (k + 1) 0 = _
      rw [ih k hk']
      show _ = (drainList dt FHT m (C - dt * C / (2 * FHT))
          (V + dt * C / (2 * FHT))).getD k 0 +
        dt * ((C + V) - (drainList dt FHT m (C - dt * C / (2 * FHT))
          (V + dt * C / (2 * FHT))).getD k 0) / (2 * FHT)
      ring_nf

lemma drainList_bounds (dt FHT : ℝ) (hF : 0 < FHT) (hdt : 0 ≤ dt)
    (hdt2 : dt ≤ 2 * FHT) :
    ∀ (n : ℕ) (C V : ℝ), 0 ≤ C →
      (drainList dt FHT n C V).Chain' (· ≤ ·) ∧
        ∀ x ∈ drainList dt FHT n C V, V ≤ x ∧ x ≤ V + C := by
  intro n
  induction n with
  | zero => intro C V _; exact ⟨List.chain'_nil, by simp [drainList]⟩
  | succ m ih =>
    intro C V hC
    have h2F : (0:ℝ) < 2 * FHT := by linarith
    have hdv0 : 0 ≤ dt * C / (2 * FHT) :=
      div_nonneg (mul_nonneg hdt hC) (le_of_lt h2F)
    have hdvC : dt * C / (2 * FHT) ≤ C := by
      rw [div_le_iff₀ h2F]
      calc dt * C ≤ (2 * FHT) * C := mul_le_mul_of_nonneg_right hdt2 hC
        _ = C * (2 * FHT) := by ring
    have hC' : 0 ≤ C - dt * C / (2 * FHT) := by linarith
    obtain ⟨ihchain, ihmem⟩ :=
      ih (C - dt * C / (2 * FHT)) (V + dt * C / (2 * FHT)) hC'
    constructor
    · show List.Chain' (· ≤ ·) ((V + dt * C / (2 * FHT)) :: _)
      rw [List.chain'_cons']
      refine ⟨?_, ihchain⟩
      intro y hy
      exact (ihmem y (List.mem_of_mem_head? hy)).1
    · intro x hx
      rcases List.mem_cons.mp hx with rfl | hx
      · constructor <;> linarith
      · obtain ⟨h1, h2⟩ := ihmem x hx
        constructor <;> linarith

lemma lengthList_length (dl : ℝ) :
    ∀ (n : ℕ) (L : ℝ), (lengthList dl n L).length = n
  | 0, _ => rfl
  | n + 1, L => by
    simp [lengthList, lengthList_length dl n]

lemma lengthList_getD (dl : ℝ) :
    ∀ (n k : ℕ), k < n → ∀ (L : ℝ),
      (lengthList dl n L).getD k 0 = L + (k + 1 : ℕ) * dl := by
  intro n
  induction n with
  | zero => omega
  | succ m ih =>
    intro k hk L
    cases k with
    | zero => show L + dl = L + ((1:ℕ) : ℝ) * dl; simp
    | succ k =>
      have hk' : k < m := by omega
      show (lengthList dl m (L + dl)).getD k 0 = _
      rw [ih k hk']
      push_cast
      ring

/-! Facts about the solver matching loop. -/

lemma firstIdx_lt_length : ∀ {l : List ℤ} {b : ℤ}, b ∈ l → firstIdx l b < l.length
  | [], b, h => absurd h (List.not_mem_nil b)
  | a :: rest, b, h => by
    by_cases hab : a = b
    · simp [firstIdx, hab]
    · have hb : b ∈ rest := by
        rcases List.mem_cons.mp h with h1 | h1
        · exact absurd h1.symm hab
        · exact h1
      simp only [firstIdx, if_neg hab, List.length_cons]
      exact Nat.succ_lt_succ (firstIdx_lt_length hb)

lemma firstIdx_getD : ∀ {l : List ℤ} {b : ℤ}, b ∈ l →
    l.getD (firstIdx l b) 0 = b
  | [], b, h => absurd h (List.not_mem_nil b)
  | a :: rest, b, h => by
    by_cases hab : a = b
    · simp [firstIdx, hab]
    · have hb : b ∈ rest := by
        rcases List.mem_cons.mp h with h1 | h1
        · exact absurd h1.symm hab
        · exact h1
      simp only [firstIdx, if_neg hab, List.getD_cons_succ]
      exact firstIdx_getD hb

lemma firstIdx_min : ∀ {l : List ℤ} {b : ℤ} {j : ℕ} (d : ℤ),
    j < firstIdx l b → l.getD j d ≠ b
  | [], b, j, d => by intro h; simp [firstIdx] at h
  | a :: rest, b, j, d => by
    intro hj
    by_cases hab : a = b
    · simp [firstIdx, hab] at hj
    · cases j with
      | zero => simpa using hab
      | succ j =>
        simp only [firstIdx, if_neg hab] at hj
        simp only [List.getD_cons_succ]
        exact firstIdx_min d (by omega)

lemma firstIdx_le : ∀ {l : List ℤ} {b : ℤ} {j : ℕ}, j < l.length →
    l.getD j 0 = b → firstIdx l b ≤ j
  | [], b, j => by intro hj; simp at hj
  | a :: rest, b, j => by
    intro hj he
    by_cases hab : a = b
    · simp [firstIdx, hab]
    · cases j with
      | zero => exact absurd he hab
      | succ j =>
        simp only [firstIdx, if_neg hab]
        have := firstIdx_le (l := rest) (b := b) (j := j)
          (by simpa using Nat.lt_of_succ_lt_succ hj) (by simpa using he)
        omega

lemma collectThetas_fst_iff (thetaTab : List ℝ) (areaTab : List ℤ) :
    ∀ l : List ℤ,
      ((collectThetas thetaTab areaTab l).1 = true ↔ ∀ a ∈ l, a ∈ areaTab)
  | [] => by simp [collectThetas]
  | a :: rest => by
    by_cases h : a ∈ areaTab
    · simp [collectThetas, h, collectThetas_fst_iff thetaTab areaTab rest]
    · simp [collectThetas, h]

lemma collectThetas_of_all_mem (thetaTab : List ℝ) (areaTab : List ℤ) :
    ∀ l : List ℤ, (∀ a ∈ l, a ∈ areaTab) →
      collectThetas thetaTab areaTab l =
        (true, l.map (fun a => thetaTab.getD (firstIdx areaTab a) 0))
  | [], _ => rfl
  | a :: rest, h => by
    have ha : a ∈ areaTab := h a (List.mem_cons_self a rest)
    have hrest := collectThetas_of_all_mem thetaTab areaTab rest
      (fun x hx => h x (List.mem_cons_of_mem a hx))
    simp [collectThetas, ha, hrest]

lemma collectThetas_snd_length_lt (thetaTab : List ℝ) (areaTab : List ℤ) :
    ∀ l : List ℤ, (collectThetas thetaTab areaTab l).1 = false →
      (collectThetas thetaTab areaTab l).2.length < l.length
  | [] => by simp [collectThetas]
  | a :: rest => by
    intro hf
    by_cases h : a ∈ areaTab
    · simp only [collectThetas, if_pos h] at hf ⊢
      have := collectThetas_snd_length_lt thetaTab areaTab rest hf
      simpa using Nat.succ_lt_succ this
    · simp [collectThetas, h]

/-! Unfolding equations for the solver while loop. -/

lemma solveAngles_eq (accDP : ℕ) (radius : ℝ) (areas : List ℤ)
    (iterations : ℕ) :
    solveAngles accDP radius areas iterations =
      if iterations < 500000 then
        if (passOnce accDP radius areas iterations).1 then
          (passOnce accDP radius areas iterations).2
        else if _h2 : iterations + 5000 < 500000 then
          solveAngles accDP radius areas (iterations + 5000)
        else (passOnce accDP radius areas iterations).2
      else [] := by
  rw [solveAngles]

lemma solveAngles_success {accDP : ℕ} {radius : ℝ} {areas : List ℤ}
    {iterations : ℕ} (h : iterations < 500000)
    (hs : (passOnce accDP radius areas iterations).1 = true) :
    solveAngles accDP radius areas iterations =
      (passOnce accDP radius areas iterations).2 := by
  rw [solveAngles_eq, if_pos h, if_pos hs]

lemma solveAngles_step {accDP : ℕ} {radius : ℝ} {areas : List ℤ}
    {iterations : ℕ} (h : iterations < 500000)
    (hf : (passOnce accDP radius areas iterations).1 = false)
    (h2 : iterations + 5000 < 500000) :
    solveAngles accDP radius areas iterations =
      solveAngles accDP radius areas (iterations + 5000) := by
  rw [solveAngles_eq, if_pos h, if_neg (by simp [hf]), dif_pos h2]

lemma solveAngles_last {accDP : ℕ} {radius : ℝ} {areas : List ℤ}
    {iterations : ℕ} (h : iterations < 500000)
    (hf : (passOnce accDP radius areas iterations).1 = false)
    (h2 : ¬ iterations + 5000 < 500000) :
    solveAngles accDP radius areas iterations =
      (passOnce accDP radius areas iterations).2 := by
  rw [solveAngles_eq, if_pos h, if_neg (by simp [hf]), dif_neg h2]

lemma solveAngles_from (accDP : ℕ) (radius : ℝ) (areas : List ℤ) :
    ∀ (n k : ℕ), k ≤ 97 → 97 - k = n →
      (∃ j, k ≤ j ∧ j ≤ 97 ∧
        (∀ i, k ≤ i → i < j →
          (passOnce accDP radius areas (10000 + 5000 * i)).1 = false) ∧
        (passOnce accDP radius areas (10000 + 5000 * j)).1 = true ∧
        solveAngles accDP radius areas (10000 + 5000 * k) =
          (passOnce accDP radius areas (10000 + 5000 * j)).2) ∨
      ((∀ i, k ≤ i → i ≤ 97 →
          (passOnce accDP radius areas (10000 + 5000 * i)).1 = false) ∧
        solveAngles accDP radius areas (10000 + 5000 * k) =
          (passOnce accDP radius areas (10000 + 5000 * 97)).2) := by
  intro n
  induction n with
  | zero =>
    intro k hk hn
    have hk97 : k = 97 := by omega
    subst hk97
    have hlt : 10000 + 5000 * 97 < 500000 := by norm_num
    cases hb : (passOnce accDP radius areas (10000 + 5000 * 97)).1 with
    | true =>
      exact Or.inl ⟨97, le_refl _, le_refl _, by omega, hb,
        solveAngles_success hlt hb⟩
    | false =>
      refine Or.inr ⟨?_, solveAngles_last hlt hb (by norm_num)⟩
      intro i h1 h2
      have hi : i = 97 := by omega
      subst hi
      exact hb
  | succ n ih =>
    intro k hk hn
    have hlt : 10000 + 5000 * k < 500000 := by omega
    cases hb : (passOnce accDP radius areas (10000 + 5000 * k)).1 with
    | true =>
      exact Or.inl ⟨k, le_refl _, by omega, by omega, hb,
        solveAngles_success hlt hb⟩
    | false =>
      have h2 : 10000 + 5000 * k + 5000 < 500000 := by omega
      have hstep := solveAngles_step hlt hb h2
      have harg : 10000 + 5000 * k + 5000 = 10000 + 5000 * (k + 1) := by ring
      rw [harg] at hstep
      rcases ih (k + 1) (by omega) (by omega) with
        ⟨j, hj1, hj2, hj3, hj4, hj5⟩ | ⟨hall, heq⟩
      · refine Or.inl ⟨j, by omega, hj2, ?_, hj4, hstep.trans hj5⟩
        intro i hi1 hi2
        rcases Nat.eq_or_lt_of_le hi1 with rfl | hi
        · exact hb
        · exact hj3 i (by omega) hi2
      · refine Or.inr ⟨?_, hstep.trans heq⟩
        intro i hi1 hi2
        rcases Nat.eq_or_lt_of_le hi1 with rfl | hi
        · exact hb
        · exact hall i (by omega) hi2

/-- C2: for every input, the adaptive inversion loop terminates.  The table
resolution takes the values 10000 + 5000 * i; a pass succeeds exactly when
every rounded target area has a match in the rounded table; either some pass
with resolution at most 495000 succeeds and its angles are returned, or all
98 passes fail and the loop halts at the cap with the last pass output. -/
theorem solveAngles_terminates_schedule (accDP : ℕ) (radius : ℝ)
    (areas : List ℤ) :
    (∀ N, ((passOnce accDP radius areas N).1 = true ↔
        ∀ a ∈ areas, a ∈ simAreas accDP radius N)) ∧
    ((∃ j, j ≤ 97 ∧
        (∀ i, i < j →
          (passOnce accDP radius areas (10000 + 5000 * i)).1 = false) ∧
        (passOnce accDP radius areas (10000 + 5000 * j)).1 = true ∧
        solveAngles accDP radius areas 10000 =
          (passOnce accDP radius areas (10000 + 5000 * j)).2) ∨
      ((∀ i, i ≤ 97 →
          (passOnce accDP radius areas (10000 + 5000 * i)).1 = false) ∧
        solveAngles accDP radius areas 10000 =
          (passOnce accDP radius areas (10000 + 5000 * 97)).2)) := by
  constructor
  · intro N
    exact collectThetas_fst_iff _ _ areas
  · have h := solveAngles_from accDP radius areas 97 0 (by omega) (by omega)
    have h0 : 10000 + 5000 * 0 = 10000 := by norm_num
    rw [h0] at h
    rcases h with ⟨j, _, hj2, hj3, hj4, hj5⟩ | ⟨hall, heq⟩
    · exact Or.inl ⟨j, hj2, fun i hi => hj3 i (by omega) hi, hj4, hj5⟩
    · exact Or.inr ⟨fun i hi => hall i (by omega) hi, heq⟩

/-- C1: when the iteration cap is reached without a full match (every pass
fails), the solver does not surface any failure condition: it returns the
partial angle list recovered by the last pass at resolution 495000, a list
strictly shorter than the target area list. -/
theorem solveAngles_cap_silent_partial (accDP : ℕ) (radius : ℝ)
    (areas : List ℤ)
    (hfail : ∀ N, (passOnce accDP radius areas N).1 = false) :
    solveAngles accDP radius areas 10000 =
      (passOnce accDP radius areas 495000).2 ∧
    (passOnce accDP radius areas 495000).2.length < areas.length := by
  have h := solveAngles_from accDP radius areas 97 0 (by omega) (by omega)
  have h0 : 10000 + 5000 * 0 = 10000 := by norm_num
  have h97 : 10000 + 5000 * 97 = 495000 := by norm_num
  rw [h0, h97] at h
  rcases h with ⟨j, _, _, _, hj4, _⟩ | ⟨_, heq⟩
  · rw [hfail _] at hj4
    exact absurd hj4 (by simp)
  · refine ⟨heq, ?_⟩
    have hf : (collectThetas (linspace 0 (2 * Real.pi) 495000)
        (simAreas accDP radius 495000) areas).1 = false := hfail 495000
    simpa [passOnce] using collectThetas_snd_length_lt _ _ _ hf

lemma neg_one_not_mem_simAreas_zero (accDP N : ℕ) :
    (-1 : ℤ) ∉ simAreas accDP (0:ℝ) N := by
  intro h
  rcases List.mem_map.mp h with ⟨theta, _, htheta⟩
  rw [show modelArea theta 0 = 0 by simp [modelArea]] at htheta
  simp [roundDP] at htheta

lemma passOnce_neg_one_fails (accDP N : ℕ) :
    (passOnce accDP (0:ℝ) [-1] N).1 = false := by
  have h := neg_one_not_mem_simAreas_zero accDP N
  simp [passOnce, collectThetas, h]

/-- Witness for C1: at radius 0 the rounded table is all zeros, so the
target area list [-1] fails every pass, and the solver returns the partial
list of the final pass. -/
theorem solveAngles_cap_silent_partial_apply :
    (∀ N, (passOnce 0 (0:ℝ) [-1] N).1 = false) ∧
    (solveAngles 0 (0:ℝ) [-1] 10000 = (passOnce 0 (0:ℝ) [-1] 495000).2 ∧
      (passOnce 0 (0:ℝ) [-1] 495000).2.length < [(-1:ℤ)].length) :=
  ⟨fun N => passOnce_neg_one_fails 0 N,
    solveAngles_cap_silent_partial 0 0 [-1]
      (fun N => passOnce_neg_one_fails 0 N)⟩

/-! Strict monotonicity of the model area in the central angle. -/

lemma modelArea_hasDerivAt (radius x : ℝ) :
    HasDerivAt (fun theta => modelArea theta radius)
      (radius ^ 2 / 2 * (1 - Real.cos x)) x := by
  have h1 : HasDerivAt (fun theta : ℝ => theta - Real.sin theta)
      (1 - Real.cos x) x := (hasDerivAt_id x).sub (Real.hasDerivAt_sin x)
  simpa [modelArea] using h1.const_mul (radius ^ 2 / 2)

lemma one_sub_cos_pos_of_mem_Ioo {x : ℝ} (hx : x ∈ Set.Ioo 0 (2 * Real.pi)) :
    0 < 1 - Real.cos x := by
  obtain ⟨hx0, hx2⟩ := hx
  have hhalf : 0 < Real.sin (x / 2) :=
    Real.sin_pos_of_pos_of_lt_pi (by linarith) (by linarith)
  have hcos : Real.cos x = 2 * Real.cos (x / 2) ^ 2 - 1 := by
    have h2 := Real.cos_two_mul (x / 2)
    rw [show 2 * (x / 2) = x by ring] at h2
    exact h2
  have hsin : Real.sin (x / 2) ^ 2 = 1 - Real.cos (x / 2) ^ 2 :=
    Real.sin_sq (x / 2)
  nlinarith [pow_pos hhalf 2]

/-- C6: for every fixed positive radius, modelArea is strictly increasing in
the central angle on [0, 2 pi], and the area at angle 0 is 0. -/
theorem modelArea_strictMonoOn (radius : ℝ) (hr : 0 < radius) :
    StrictMonoOn (fun theta => modelArea theta radius)
      (Set.Icc 0 (2 * Real.pi)) ∧ modelArea 0 radius = 0 := by
  constructor
  · apply strictMonoOn_of_deriv_pos (convex_Icc _ _)
    · have hc : Continuous (fun theta : ℝ => modelArea theta radius) := by
        unfold modelArea
        fun_prop
      exact hc.continuousOn
    · intro x hx
      rw [interior_Icc] at hx
      rw [(modelArea_hasDerivAt radius x).deriv]
      have h1 := one_sub_cos_pos_of_mem_Ioo hx
      have h2 : 0 < radius ^ 2 / 2 := by positivity
      exact mul_pos h2 h1
  · simp [modelArea]

/-- Witness for C6 at radius 1. -/
theorem modelArea_strictMonoOn_apply :
    (0:ℝ) < 1 ∧
    (StrictMonoOn (fun theta => modelArea theta 1)
        (Set.Icc 0 (2 * Real.pi)) ∧ modelArea 0 1 = 0) :=
  ⟨one_pos, modelArea_strictMonoOn 1 one_pos⟩

/-! Drainage kinetics: C4 and C5. -/

lemma getLiquidVolume_example :
    getLiquidVolume [(0:ℝ), 1] 1 (1/2) = some [1, 1] := by
  norm_num [getLiquidVolume, drainList]

/-- C4 counterexample: on the grid [0, 1] with C0 = 1 and FHT = 1/2 the
value emitted at t = 0 is 1, not 0: the Euler update precedes the first
emission. -/
theorem getLiquidVolume_first_value_not_zero :
    getLiquidVolume [(0:ℝ), 1] 1 (1/2) = some [1, 1] ∧ (1:ℝ) ≠ 0 :=
  ⟨getLiquidVolume_example, one_ne_zero⟩

/-- C4 amended: on a grid with at least two points the kinetics emits one
cumulative value per grid point via dv = dt * C / (2 * FHT), C -= dv,
V += dv; the value emitted at t = 0 equals dt * C0 / (2 * FHT) (not 0), and
successive values satisfy the induced recurrence. -/
theorem getLiquidVolume_recurrence (t0 t1 : ℝ) (rest : List ℝ)
    (C0 FHT : ℝ) (vols : List ℝ)
    (h : getLiquidVolume (t0 :: t1 :: rest) C0 FHT = some vols) :
    vols.length = (t0 :: t1 :: rest).length ∧
    vols.getD 0 0 = (t1 - t0) * C0 / (2 * FHT) ∧
    ∀ k, k + 1 < vols.length →
      vols.getD (k + 1) 0 =
        vols.getD k 0 + (t1 - t0) * (C0 - vols.getD k 0) / (2 * FHT) := by
  have hv : drainList (t1 - t0) FHT (rest.length + 2) C0 0 = vols := by
    simpa [getLiquidVolume] using h
  subst hv
  refine ⟨?_, ?_, ?_⟩
  · rw [drainList_length]
    simp
  · rw [drainList_getD_zero _ _ (by omega)]
    ring
  · intro k hk
    rw [drainList_length] at hk
    have h2 := drainList_getD_succ (t1 - t0) FHT (rest.length + 2) k hk C0 0
    simpa using h2

/-- Witness for C4 amended on the grid [0, 1] with C0 = 1 and FHT = 1/2. -/
theorem getLiquidVolume_recurrence_apply :
    getLiquidVolume [(0:ℝ), 1] 1 (1/2) = some [1, 1] ∧
    (([(1:ℝ), 1]).length = ([(0:ℝ), 1]).length ∧
      ([(1:ℝ), 1]).getD 0 0 = (1 - 0) * 1 / (2 * (1/2)) ∧
      ∀ k, k + 1 < ([(1:ℝ), 1]).length →
        ([(1:ℝ), 1]).getD (k + 1) 0 =
          ([(1:ℝ), 1]).getD k 0 +
            (1 - 0) * (1 - ([(1:ℝ), 1]).getD k 0) / (2 * (1/2))) :=
  ⟨getLiquidVolume_example,
    getLiquidVolume_recurrence 0 1 [] 1 (1/2) [1, 1] getLiquidVolume_example⟩

lemma getLiquidVolume_bigstep_example :
    getLiquidVolume [(0:ℝ), 2] 1 (1/2) = some [2, 0] := by
  simp [getLiquidVolume, drainList]
  norm_num

/-- C5 counterexample: with C0 = 1 > 0, FHT = 1/2 > 0 and positive step
dt = 2 the emitted series is [2, 0]: the first value exceeds C0 = 1 and the
series strictly decreases, refuting the claim for every positive step. -/
theorem getLiquidVolume_large_step_violates_bounds :
    getLiquidVolume [(0:ℝ), 2] 1 (1/2) = some [2, 0] ∧
    ¬ ((2:ℝ) ≤ 1) ∧ ¬ List.Chain' (· ≤ ·) [(2:ℝ), 0] := by
  refine ⟨getLiquidVolume_bigstep_example, by norm_num, ?_⟩
  simp only [List.chain'_cons, List.chain'_singleton, and_true]
  norm_num

/-- C5 amended: for positive C0, positive FHT and positive step size dt
bounded by 2 * FHT, the cumulative drained series is non-decreasing and
every value is at most C0. -/
theorem getLiquidVolume_monotone_bounded (t0 t1 : ℝ) (rest : List ℝ)
    (C0 FHT : ℝ) (hC0 : 0 < C0) (hF : 0 < FHT) (hdt : 0 < t1 - t0)
    (hdt2 : t1 - t0 ≤ 2 * FHT) (vols : List ℝ)
    (h : getLiquidVolume (t0 :: t1 :: rest) C0 FHT = some vols) :
    List.Chain' (· ≤ ·) vols ∧ ∀ x ∈ vols, x ≤ C0 := by
  have hv : drainList (t1 - t0) FHT (rest.length + 2) C0 0 = vols := by
    simpa [getLiquidVolume] using h
  obtain ⟨hchain, hmem⟩ := drainList_bounds (t1 - t0) FHT hF (le_of_lt hdt)
    hdt2 (rest.length + 2) C0 0 (le_of_lt hC0)
  rw [hv] at hchain hmem
  exact ⟨hchain, fun x hx => by simpa using (hmem x hx).2⟩

/-- Witness for C5 amended on the grid [0, 1] with C0 = 1 and FHT = 1/2. -/
theorem getLiquidVolume_monotone_bounded_apply :
    ((0:ℝ) < 1 ∧ (0:ℝ) < 1/2 ∧ (0:ℝ) < 1 - 0 ∧ (1:ℝ) - 0 ≤ 2 * (1/2) ∧
      getLiquidVolume [(0:ℝ), 1] 1 (1/2) = some [1, 1]) ∧
    (List.Chain' (· ≤ ·) [(1:ℝ), 1] ∧ ∀ x ∈ [(1:ℝ), 1], x ≤ 1) :=
  ⟨⟨by norm_num, by norm_num, by norm_num, by norm_num,
      getLiquidVolume_example⟩,
    getLiquidVolume_monotone_bounded 0 1 [] 1 (1/2) (by norm_num)
      (by norm_num) (by norm_num) (by norm_num) [1, 1]
      getLiquidVolume_example⟩

/-! Column length model: C8. -/

lemma lengthList_chain_lt (dl : ℝ) (hdl : dl < 0) :
    ∀ (n : ℕ) (L : ℝ), List.Chain' (fun x y => y < x) (lengthList dl n L)
  | 0, L => List.chain'_nil
  | n + 1, L => by
    show List.Chain' (fun x y => y < x) ((L + dl) :: lengthList dl n (L + dl))
    rw [List.chain'_cons']
    refine ⟨?_, lengthList_chain_lt dl hdl n (L + dl)⟩
    intro y hy
    cases n with
    | zero => simp [lengthList] at hy
    | succ m =>
      simp only [lengthList, List.head?_cons, Option.mem_def,
        Option.some.injEq] at hy
      rw [← hy]
      linarith

lemma getSyringeCrossArea_pos {D : ℝ} (hD : 0 < D) :
    0 < getSyringeCrossArea D := by
  have hD2 : 0 < D / 2 := by linarith
  exact mul_pos Real.pi_pos (pow_pos hD2 2)

/-- C8: over a uniform strictly increasing grid with at least two points and
positive diameter, the column length series is strictly decreasing when
Q > 0 and constant at L0 when Q = 0; each value equals the unclamped closed
form L0 + (k + 1) * dl, so no clamp at zero is applied and the values go
to or below zero whenever the closed form does. -/
theorem getLiquidLength_monotone (D t0 t1 : ℝ) (rest : List ℝ) (Q L0 : ℝ)
    (hdt : 0 < t1 - t0) (hD : 0 < D) (lens : List ℝ)
    (h : getLiquidLength D (t0 :: t1 :: rest) Q L0 = some lens) :
    (0 < Q → List.Chain' (fun x y => y < x) lens) ∧
    (Q = 0 → ∀ x ∈ lens, x = L0) ∧
    (∀ k, k < lens.length →
      lens.getD k 0 =
        L0 + (k + 1 : ℕ) *
          ((t1 - t0) * (-Q * 1000) / getSyringeCrossArea D)) := by
  have hv : lengthList ((t1 - t0) * (-Q * 1000) / getSyringeCrossArea D)
      (rest.length + 2) L0 = lens := by
    simpa [getLiquidLength] using h
  have hlen : lens.length = rest.length + 2 := by
    rw [← hv, lengthList_length]
  have hgetD : ∀ k, k < lens.length →
      lens.getD k 0 =
        L0 + (k + 1 : ℕ) *
          ((t1 - t0) * (-Q * 1000) / getSyringeCrossArea D) := by
    intro k hk
    rw [← hv, lengthList_getD _ _ k (by omega)]
  refine ⟨?_, ?_, hgetD⟩
  · intro hQ
    have hA := getSyringeCrossArea_pos hD
    have hdl : (t1 - t0) * (-Q * 1000) / getSyringeCrossArea D < 0 := by
      apply div_neg_of_neg_of_pos _ hA
      have : -Q * 1000 < 0 := by linarith
      exact mul_neg_of_pos_of_neg hdt this
    rw [← hv]
    exact lengthList_chain_lt _ hdl _ _
  · intro hQ x hx
    obtain ⟨k, hk, rfl⟩ := List.mem_iff_getElem.mp hx
    rw [← List.getD_eq_getElem _ 0 hk, hgetD k hk, hQ]
    simp

/-- Witness for C8 with diameter 2, grid [0, 1], Q = 0 and L0 = 5. -/
theorem getLiquidLength_monotone_apply :
    ((0:ℝ) < 1 - 0 ∧ (0:ℝ) < 2 ∧
      getLiquidLength 2 [(0:ℝ), 1] 0 5 = some [5, 5]) ∧
    (((0:ℝ) < 0 → List.Chain' (fun x y => y < x) [(5:ℝ), 5]) ∧
      ((0:ℝ) = 0 → ∀ x ∈ [(5:ℝ), 5], x = 5) ∧
      (∀ k, k < ([(5:ℝ), 5]).length →
        ([(5:ℝ), 5]).getD k 0 =
          5 + (k + 1 : ℕ) *
            ((1 - 0) * (-0 * 1000) / getSyringeCrossArea 2))) :=
  ⟨⟨by norm_num, by norm_num, by
      simp [getLiquidLength, lengthList]⟩,
    getLiquidLength_monotone 2 0 1 [] 0 5 (by norm_num) (by norm_num)
      [5, 5] (by simp [getLiquidLength, lengthList])⟩

/-! Reduction helpers for getLiquidHeight. -/

lemma getLiquidHeight_none {D L0 FHT : ℝ} {accDP Tfrequency : ℕ}
    {tdata : List ℝ} {Q T foamLiquidContent : ℝ}
    (hnone : getLiquidArea D L0 FHT tdata Q foamLiquidContent = none) :
    getLiquidHeight D L0 FHT accDP Tfrequency tdata Q T foamLiquidContent =
      none := by
  unfold getLiquidHeight
  rw [hnone]

lemma getLiquidHeight_some {D L0 FHT : ℝ} {accDP Tfrequency : ℕ}
    {tdata : List ℝ} {Q T foamLiquidContent : ℝ} {rawAreas : List ℝ}
    (harea : getLiquidArea D L0 FHT tdata Q foamLiquidContent =
      some rawAreas) :
    getLiquidHeight D L0 FHT accDP Tfrequency tdata Q T foamLiquidContent =
      some
        (((solveAngles accDP (D / 2) (rawAreas.map (roundDP accDP)) 10000).map
            (fun x => calculateHeight D x)).map
          (fun x => if D / 2 < x then D / 2 else x),
        (setTimeGrid T Tfrequency).take
          (((solveAngles accDP (D / 2) (rawAreas.map (roundDP accDP)) 10000).map
              (fun x => calculateHeight D x)).map
            (fun x => if D / 2 < x then D / 2 else x)).length) := by
  unfold getLiquidHeight
  rw [harea]

/-- C3: every value in the height series returned by getLiquidHeight is at
most D / 2: heights are computed from the recovered central angles by
calculateHeight and any value exceeding D / 2 is clamped to exactly D / 2,
so the bound holds for every central angle, inside or outside [0, 2 pi]. -/
theorem getLiquidHeight_le_radius (D L0 FHT : ℝ) (accDP Tfrequency : ℕ)
    (tdata : List ℝ) (Q T foamLiquidContent : ℝ) (hts ts : List ℝ)
    (h : getLiquidHeight D L0 FHT accDP Tfrequency tdata Q T
      foamLiquidContent = some (hts, ts)) :
    ∀ x ∈ hts, x ≤ D / 2 := by
  cases harea : getLiquidArea D L0 FHT tdata Q foamLiquidContent with
  | none =>
    rw [getLiquidHeight_none harea] at h
    exact Option.noConfusion h
  | some rawAreas =>
    rw [getLiquidHeight_some harea] at h
    simp only [Option.some.injEq, Prod.mk.injEq] at h
    obtain ⟨hh, -⟩ := h
    intro x hx
    rw [← hh] at hx
    obtain ⟨y, -, hy⟩ := List.mem_map.mp hx
    rw [← hy]
    by_cases hc : D / 2 < y
    · rw [if_pos hc]
    · rw [if_neg hc]
      linarith

/-- C9: when the area filter removes every sample, getLiquidHeight returns
the valid empty height series with an empty aligned time grid, and no
error. -/
theorem getLiquidHeight_empty_filter (D L0 FHT : ℝ) (accDP Tfrequency : ℕ)
    (tdata : List ℝ) (Q T foamLiquidContent : ℝ)
    (h : getLiquidArea D L0 FHT tdata Q foamLiquidContent = some []) :
    getLiquidHeight D L0 FHT accDP Tfrequency tdata Q T foamLiquidContent =
      some ([], []) := by
  rw [getLiquidHeight_some h]
  have hp : passOnce accDP (D / 2) [] 10000 = (true, []) := by
    simp [passOnce, collectThetas]
  have hsolve :
      solveAngles accDP (D / 2) (([] : List ℝ).map (roundDP accDP)) 10000 =
        [] := by
    rw [List.map_nil, solveAngles_success (by norm_num) (by rw [hp]), hp]
  rw [hsolve]
  simp

/-- C10: for an injection duration T strictly between 0 and 1 second the
constructed grid np.linspace(0, T, int(T) * frequency + 1) has exactly one
point, and getLiquidVolume and getLiquidLength both fail on it (modelled by
none where the Python code raises IndexError reading tdata[1]); in general
both functions fail on every grid with fewer than two points. -/
theorem setTimeGrid_short_duration_fails (T : ℝ) (hT0 : 0 < T) (hT1 : T < 1)
    (Tfrequency : ℕ) (D L0 FHT Q foamLiquidContent : ℝ) :
    (setTimeGrid T Tfrequency).length = 1 ∧
    getLiquidVolume (setTimeGrid T Tfrequency) foamLiquidContent FHT =
      none ∧
    getLiquidLength D (setTimeGrid T Tfrequency) Q L0 = none ∧
    (∀ td : List ℝ, td.length < 2 →
      getLiquidVolume td foamLiquidContent FHT = none ∧
      getLiquidLength D td Q L0 = none) := by
  have hfloor : ⌊T⌋ = 0 :=
    Int.floor_eq_zero_iff.mpr (Set.mem_Ico.mpr ⟨le_of_lt hT0, hT1⟩)
  have hlen : (setTimeGrid T Tfrequency).length = 1 := by
    rw [setTimeGrid, linspace_length, hfloor]
    simp
  have hshort : ∀ td : List ℝ, td.length < 2 →
      getLiquidVolume td foamLiquidContent FHT = none ∧
      getLiquidLength D td Q L0 = none := by
    intro td htd
    match td, htd with
    | [], _ => exact ⟨rfl, rfl⟩
    | [t], _ => exact ⟨rfl, rfl⟩
    | t0 :: t1 :: rest, htd => simp only [List.length_cons] at htd; omega
  refine ⟨hlen, ?_, ?_, hshort⟩
  · exact (hshort _ (by omega)).1
  · exact (hshort _ (by omega)).2

/-- Witness for C10 at T = 1/2 with frequency 20. -/
theorem setTimeGrid_short_duration_fails_apply :
    ((0:ℝ) < 1/2 ∧ (1:ℝ)/2 < 1) ∧
    ((setTimeGrid (1/2) 20).length = 1 ∧
      getLiquidVolume (setTimeGrid (1/2) 20) 1 90 = none ∧
      getLiquidLength 2 (setTimeGrid (1/2) 20) 1 5 = none ∧
      (∀ td : List ℝ, td.length < 2 →
        getLiquidVolume td 1 90 = none ∧ getLiquidLength 2 td 1 5 = none)) :=
  ⟨⟨by norm_num, by norm_num⟩,
    setTimeGrid_short_duration_fails (1/2) (by norm_num) (by norm_num) 20
      2 5 90 1 1⟩

/-! First-match property of a successful solver pass: C7. -/

lemma simAreas_length (accDP : ℕ) (radius : ℝ) (N : ℕ) :
    (simAreas accDP radius N).length = N := by
  rw [simAreas, List.length_map, linspace_length]

/-- C7: in a successful inversion pass every rounded target area is found
in the rounded table, the recorded angle sits at the first matching table
index, and since the sampled angles ascend over [0, 2 pi] it is the
smallest matching angle; exactly one angle is recorded per target area. -/
theorem passOnce_first_match (accDP : ℕ) (radius : ℝ) (areas : List ℤ)
    (N : ℕ) (ts : List ℝ)
    (hsucc : passOnce accDP radius areas N = (true, ts)) :
    ts.length = areas.length ∧
    ∀ k, k < areas.length →
      (simAreas accDP radius N).getD
          (firstIdx (simAreas accDP radius N) (areas.getD k 0)) 0 =
        areas.getD k 0 ∧
      (∀ j, j < firstIdx (simAreas accDP radius N) (areas.getD k 0) →
        (simAreas accDP radius N).getD j 0 ≠ areas.getD k 0) ∧
      ts.getD k 0 =
        (linspace 0 (2 * Real.pi) N).getD
          (firstIdx (simAreas accDP radius N) (areas.getD k 0)) 0 ∧
      (∀ j, j < N → (simAreas accDP radius N).getD j 0 = areas.getD k 0 →
        ts.getD k 0 ≤ (linspace 0 (2 * Real.pi) N).getD j 0) := by
  have hfst : (passOnce accDP radius areas N).1 = true := by rw [hsucc]
  have hall : ∀ a ∈ areas, a ∈ simAreas accDP radius N :=
    (collectThetas_fst_iff _ _ areas).mp hfst
  have h2 : passOnce accDP radius areas N =
      (true, areas.map (fun a => (linspace 0 (2 * Real.pi) N).getD
        (firstIdx (simAreas accDP radius N) a) 0)) :=
    collectThetas_of_all_mem _ _ areas hall
  have hts : ts = areas.map (fun a => (linspace 0 (2 * Real.pi) N).getD
      (firstIdx (simAreas accDP radius N) a) 0) :=
    congrArg Prod.snd (hsucc.symm.trans h2)
  subst hts
  refine ⟨List.length_map _ _, ?_⟩
  intro k hk
  have hak : areas.getD k 0 ∈ areas := by
    rw [List.getD_eq_getElem areas 0 hk]
    exact List.getElem_mem _
  have hamem : areas.getD k 0 ∈ simAreas accDP radius N := hall _ hak
  have hmap : (areas.map (fun a => (linspace 0 (2 * Real.pi) N).getD
      (firstIdx (simAreas accDP radius N) a) 0)).getD k 0 =
      (linspace 0 (2 * Real.pi) N).getD
        (firstIdx (simAreas accDP radius N) (areas.getD k 0)) 0 := by
    rw [List.getD_eq_getElem _ 0 (by rw [List.length_map]; exact hk),
      List.getElem_map, ← List.getD_eq_getElem areas 0 hk]
  refine ⟨firstIdx_getD hamem, fun j hj => firstIdx_min 0 hj, hmap, ?_⟩
  intro j hjN hj_eq
  have hjlen : j < (simAreas accDP radius N).length := by
    rw [simAreas_length]
    exact hjN
  have hle : firstIdx (simAreas accDP radius N) (areas.getD k 0) ≤ j :=
    firstIdx_le hjlen hj_eq
  rw [hmap]
  exact linspace_getD_mono 0 (2 * Real.pi) (by positivity) hle hjN

/-! Concrete solver evaluations used by witnesses. -/

lemma linspace_head (a b : ℝ) (n : ℕ) :
    ∃ rest, linspace a b (n + 1) = a :: rest := by
  rw [linspace, List.range_succ_eq_map, List.map_cons]
  refine ⟨((List.range n).map Nat.succ).map
    (fun (i : ℕ) => a + (b - a) * i / ((n + 1 - 1 : ℕ) : ℝ)), ?_⟩
  congr 1
  push_cast
  ring

lemma simAreas_head (accDP : ℕ) (radius : ℝ) (n : ℕ) :
    ∃ rest, simAreas accDP radius (n + 1) = 0 :: rest := by
  obtain ⟨r1, hr1⟩ := linspace_head 0 (2 * Real.pi) n
  rw [simAreas, hr1, List.map_cons]
  refine ⟨r1.map (fun theta => roundDP accDP (modelArea theta radius)), ?_⟩
  congr 1
  simp [modelArea, roundDP]

lemma collectThetas_all_zero (theta0 : ℝ) (trest : List ℝ) (arest : List ℤ) :
    ∀ l : List ℤ, (∀ a ∈ l, a = (0:ℤ)) →
      collectThetas (theta0 :: trest) ((0:ℤ) :: arest) l =
        (true, l.map (fun _ => theta0))
  | [], _ => rfl
  | a :: rest, h => by
    have ha : a = 0 := h a (List.mem_cons_self a rest)
    have hmem : a ∈ (0:ℤ) :: arest := by
      rw [ha]
      exact List.mem_cons_self 0 arest
    have hidx : firstIdx ((0:ℤ) :: arest) a = 0 := by
      rw [ha]
      simp [firstIdx]
    have hrec := collectThetas_all_zero theta0 trest arest rest
      (fun x hx => h x (List.mem_cons_of_mem a hx))
    simp [collectThetas, hmem, hidx, hrec]

lemma passOnce_zeros (accDP : ℕ) (radius : ℝ) (n : ℕ) (l : List ℤ)
    (hl : ∀ a ∈ l, a = 0) :
    passOnce accDP radius l (n + 1) = (true, l.map (fun _ => (0:ℝ))) := by
  obtain ⟨r1, hr1⟩ := linspace_head 0 (2 * Real.pi) n
  obtain ⟨r2, hr2⟩ := simAreas_head accDP radius n
  rw [passOnce, hr1, hr2]
  exact collectThetas_all_zero 0 r1 r2 l hl

/-- Witness for C7: with radius 0 every table entry rounds to 0, so the
pass at resolution 10000 succeeds on the target list [0], recording the
angle 0 found at the first table index. -/
theorem passOnce_first_match_apply :
    passOnce 0 (0:ℝ) [(0:ℤ)] 10000 = (true, [(0:ℝ)]) ∧
    (([(0:ℝ)]).length = ([(0:ℤ)]).length ∧
      ∀ k, k < ([(0:ℤ)]).length →
        (simAreas 0 (0:ℝ) 10000).getD
            (firstIdx (simAreas 0 (0:ℝ) 10000) (([(0:ℤ)]).getD k 0)) 0 =
          ([(0:ℤ)]).getD k 0 ∧
        (∀ j, j < firstIdx (simAreas 0 (0:ℝ) 10000) (([(0:ℤ)]).getD k 0) →
          (simAreas 0 (0:ℝ) 10000).getD j 0 ≠ ([(0:ℤ)]).getD k 0) ∧
        ([(0:ℝ)]).getD k 0 =
          (linspace 0 (2 * Real.pi) 10000).getD
            (firstIdx (simAreas 0 (0:ℝ) 10000) (([(0:ℤ)]).getD k 0)) 0 ∧
        (∀ j, j < 10000 →
          (simAreas 0 (0:ℝ) 10000).getD j 0 = ([(0:ℤ)]).getD k 0 →
          ([(0:ℝ)]).getD k 0 ≤
            (linspace 0 (2 * Real.pi) 10000).getD j 0)) := by
  have hp : passOnce 0 (0:ℝ) [(0:ℤ)] 10000 = (true, [(0:ℝ)]) := by
    have h := passOnce_zeros 0 0 9999 [0] (by simp)
    simpa using h
  exact ⟨hp, passOnce_first_match 0 0 [0] 10000 [0] hp⟩

/-! Concrete pipeline for the C3 witness: diameter 2, grid [0, 1], Q = 0,
L0 = 100000 / pi, C0 = 1, FHT = 1/2, accuracy 0 digits. -/

lemma pipeline_length_example :
    getLiquidLength 2 [(0:ℝ), 1] 0 (100000 / Real.pi) =
      some [100000 / Real.pi, 100000 / Real.pi] := by
  simp [getLiquidLength, lengthList]

lemma pipeline_area_example :
    getLiquidArea 2 (100000 / Real.pi) (1/2) [(0:ℝ), 1] 0 1 =
      some [Real.pi / 100, Real.pi / 100] := by
  have hq : (1:ℝ) * 1000 / (100000 / Real.pi) = Real.pi / 100 := by
    have hpi := Real.pi_ne_zero
    field_simp
    ring
  have hcond : (1:ℝ) * 1000 / (100000 / Real.pi) < getSyringeCrossArea 2 ∧
      0 < (1:ℝ) * 1000 / (100000 / Real.pi) := by
    rw [hq, getSyringeCrossArea]
    norm_num
    constructor
    · linarith [Real.pi_pos]
    · linarith [Real.pi_pos]
  unfold getLiquidArea
  rw [getLiquidVolume_example, pipeline_length_example]
  simp only [List.map_cons, List.map_nil, List.zip_cons_cons,
    List.zip_nil_left, List.filterMap_cons, List.filterMap_nil,
    if_pos hcond]
  rw [hq]

lemma pipeline_round_example :
    ([Real.pi / 100, Real.pi / 100]).map (roundDP 0) = [(0:ℤ), 0] := by
  have h : roundDP 0 (Real.pi / 100) = 0 := by
    rw [roundDP]
    norm_num
    constructor
    · linarith [Real.pi_pos]
    · linarith [Real.pi_lt_d2]
  simp [h]

lemma pipeline_solve_example :
    solveAngles 0 1 [(0:ℤ), 0] 10000 = [0, 0] := by
  have hp : passOnce 0 (1:ℝ) [(0:ℤ), 0] 10000 = (true, [0, 0]) := by
    have h := passOnce_zeros 0 1 9999 [0, 0] (by simp)
    simpa using h
  rw [solveAngles_success (by norm_num) (by rw [hp]), hp]

lemma pipeline_height_example :
    getLiquidHeight 2 (100000 / Real.pi) (1/2) 0 1 [(0:ℝ), 1] 0 1 1 =
      some ([0, 0], (setTimeGrid 1 1).take 2) := by
  rw [getLiquidHeight_some pipeline_area_example]
  rw [show (2:ℝ) / 2 = 1 by norm_num, pipeline_round_example,
    pipeline_solve_example]
  have hch : calculateHeight 2 0 = 0 := by
    simp [calculateHeight]
  have hcl : ¬ ((1:ℝ) < 0) := by norm_num
  simp [hch, hcl]

/-- Witness for C3 on the concrete pipeline: the returned height series is
[0, 0] and both values are at most D / 2 = 1. -/
theorem getLiquidHeight_le_radius_apply :
    getLiquidHeight 2 (100000 / Real.pi) (1/2) 0 1 [(0:ℝ), 1] 0 1 1 =
      some ([0, 0], (setTimeGrid 1 1).take 2) ∧
    ∀ x ∈ [(0:ℝ), 0], x ≤ 2 / 2 :=
  ⟨pipeline_height_example,
    getLiquidHeight_le_radius 2 (100000 / Real.pi) (1/2) 0 1 [0, 1] 0 1 1
      [0, 0] ((setTimeGrid 1 1).take 2) pipeline_height_example⟩

/-! Concrete empty-filter run for the C9 witness. -/

lemma empty_area_example :
    getLiquidArea 2 1 (1/2) [(0:ℝ), 1] 0 0 = some [] := by
  have hvol : getLiquidVolume [(0:ℝ), 1] 0 (1/2) = some [0, 0] := by
    norm_num [getLiquidVolume, drainList]
  have hlen : getLiquidLength 2 [(0:ℝ), 1] 0 1 = some [1, 1] := by
    simp [getLiquidLength, lengthList]
  unfold getLiquidArea
  rw [hvol, hlen]
  simp

/-- Witness for C9: with zero liquid content every sample is filtered out
and getLiquidHeight returns the empty height series with the empty grid. -/
theorem getLiquidHeight_empty_filter_apply :
    getLiquidArea 2 1 (1/2) [(0:ℝ), 1] 0 0 = some [] ∧
    getLiquidHeight 2 1 (1/2) 0 1 [(0:ℝ), 1] 0 1 0 = some ([], []) :=
  ⟨empty_area_example,
    getLiquidHeight_empty_filter 2 1 (1/2) 0 1 [0, 1] 0 1 0
      empty_area_example⟩

end SyringeDrainage
